import Mathlib

/-!
Verification of the metric engine of the source-code-analyzer repository.

The repository ships the engine as `src/code_complexity.py`; that file is not
present in the source snapshot (only the README files and the committed report
tables under `example/` are), so every engine definition below is modelled from
the specification, anchored on the report tables committed in
`example/example1.py` and `example/more_examples/example2.py`.
-/

namespace SCA

/-- Modelled from the spec: the closed set of `kind` tags carried by a syntax
node (`src/code_complexity.py` is missing from the snapshot).  The spec lists
conditionals, loops, boolean operators, function definitions, exception
handlers, switch/match arms, calls recognized as recursive calls to the same
function, goto/unconditional jumps to a label, and jump (break/continue)
nodes; `statement` covers simple statements and `other` covers every
remaining node kind. -/
inductive Kind where
  | conditional
  | loop
  | exceptionHandler
  | matchArm
  | functionDefinition
  | lambdaFn
  | booleanOperator
  | recursiveCall
  | gotoLabel
  | jump
  | statement
  | other
deriving DecidableEq

/-- Modelled from the spec: a source span, start and end line (1-based,
inclusive) of a node in the source text. -/
structure Span where
  startLine : Nat
  endLine : Nat
deriving DecidableEq

mutual
/-- Modelled from the spec: an opaque tree node with a `kind` tag, a name and a
formal-parameter count (meaningful for function definitions), a source span,
and a sequence of children (`src/code_complexity.py` is missing). -/
inductive SyntaxNode where
  | mk : Kind → String → Nat → Span → NodeList → SyntaxNode

/-- A sequence of child syntax nodes (kept as a mutual inductive so that all
traversals are structural recursions). -/
inductive NodeList where
  | nil : NodeList
  | cons : SyntaxNode → NodeList → NodeList
end

def SyntaxNode.kind : SyntaxNode → Kind
  | .mk k _ _ _ _ => k

def SyntaxNode.name : SyntaxNode → String
  | .mk _ nm _ _ _ => nm

def SyntaxNode.params : SyntaxNode → Nat
  | .mk _ _ p _ _ => p

def SyntaxNode.span : SyntaxNode → Span
  | .mk _ _ _ sp _ => sp

def SyntaxNode.children : SyntaxNode → NodeList
  | .mk _ _ _ _ cs => cs

def NodeList.append : NodeList → NodeList → NodeList
  | .nil, l => l
  | .cons c cs, l => .cons c (NodeList.append cs l)

mutual
/-- Modelled from the spec: the Cognitive Complexity Scorer's traversal of one
node at nesting level `n` (`src/code_complexity.py` is missing).  Conditional
branches, loops, exception handlers and match arms add `1 + n` and their bodies
are walked at level `n + 1`; a nested function definition or lambda adds
`1 + n` for the act of nesting but the enclosing traversal stops descending
there (the nested body gets its own independent record and score); a
boolean-operator run, a recursive call to the same function, and a
goto/unconditional jump to a label each add a flat `+1` regardless of
nesting; early-exit jump (break/continue) nodes, simple statements and all
other nodes add nothing. -/
def scoreAt (n : Nat) : SyntaxNode → Nat
  | .mk k _ _ _ cs =>
    match k with
    | .conditional => (1 + n) + scoreListAt (n + 1) cs
    | .loop => (1 + n) + scoreListAt (n + 1) cs
    | .exceptionHandler => (1 + n) + scoreListAt (n + 1) cs
    | .matchArm => (1 + n) + scoreListAt (n + 1) cs
    | .functionDefinition => 1 + n
    | .lambdaFn => 1 + n
    | .booleanOperator => 1 + scoreListAt n cs
    | .recursiveCall => 1 + scoreListAt n cs
    | .gotoLabel => 1 + scoreListAt n cs
    | .jump => scoreListAt n cs
    | .statement => scoreListAt n cs
    | .other => scoreListAt n cs

/-- Scores a sibling sequence: each sibling is scored at the same nesting level
(the level consumed inside one construct is restored before its successor). -/
def scoreListAt (n : Nat) : NodeList → Nat
  | .nil => 0
  | .cons c cs => scoreAt n c + scoreListAt n cs
end

/-- Modelled from the spec: `score(function_node)` — the cognitive complexity
of one collected function, its body walked starting at nesting level 0. -/
def score (f : SyntaxNode) : Nat :=
  scoreListAt 0 f.children

/-- Modelled from the spec: a collected function definition — name, a reference
to its subtree, and its declared parameter count. -/
structure FunctionRecord where
  name : String
  node : SyntaxNode
  params : Nat

mutual
/-- Modelled from the spec: the Function Collector — one pre-order walk of the
file tree emitting a record for every function-definition node, nested
definitions included, outer functions before their nested children
(`src/code_complexity.py` is missing). -/
def collect : SyntaxNode → List FunctionRecord
  | .mk k nm p sp cs =>
    (if k = Kind.functionDefinition
      then [⟨nm, .mk k nm p sp cs, p⟩] else []) ++ collectList cs

def collectList : NodeList → List FunctionRecord
  | .nil => []
  | .cons c cs => collect c ++ collectList cs
end

/-- A source line is blank when it is empty. -/
def isBlankLine (l : String) : Bool :=
  l == ""

/-- The physical lines of the source text covered by the 1-based inclusive
line range `[s, e]`. -/
def sliceLines (lines : List String) (s e : Nat) : List String :=
  (lines.drop (s - 1)).take (e + 1 - s)

/-- Modelled from the spec: the logical-line count of a line range — the
number of non-blank source lines it covers (blank lines are excluded; the
committed report tables fix this behaviour: the 10-physical-line
`add_numbers_simple` with 3 blank lines reports 7 logical lines and the
6-physical-line `add_numbers_complex` with no blank line reports 6). -/
def llocOf (lines : List String) (s e : Nat) : Nat :=
  (sliceLines lines s e).countP (fun l => !(isBlankLine l))

/-- The pair of size metrics returned by the extractor. -/
structure Measures where
  loc : Int
  lloc : Int
deriving DecidableEq

/-- Modelled from the spec: the Size Metric Extractor
(`src/code_complexity.py` is missing).  A malformed span (end before start) is
a hard error identifying the function name; otherwise `lines_of_code` is the
raw physical count `end − start + 1` and `logical_lines_of_code` counts the
non-blank lines of the span. -/
def measure (node : SyntaxNode) (lines : List String) : Except String Measures :=
  if node.span.endLine < node.span.startLine then
    .error ("malformed span in function " ++ node.name)
  else
    .ok ⟨(node.span.endLine : Int) - (node.span.startLine : Int) + 1,
         (llocOf lines node.span.startLine node.span.endLine : Int)⟩

/-- Modelled from the spec: one row of the report table. -/
structure MetricRow where
  function_name : String
  cognitive_complexity : Nat
  lines_of_code : Int
  logical_lines_of_code : Int
  function_arguments : Nat
deriving DecidableEq

/-- Modelled from the spec: a per-file report — file path and ordered rows. -/
structure FileReport where
  file_path : String
  rows : List MetricRow
deriving DecidableEq

/-- The four sortable metric fields of a row. -/
inductive Field where
  | cognitive_complexity
  | lines_of_code
  | logical_lines_of_code
  | function_arguments
deriving DecidableEq

/-- Reads the selected metric field of a row (as an integer). -/
def getField (k : Field) (r : MetricRow) : Int :=
  match k with
  | .cognitive_complexity => (r.cognitive_complexity : Int)
  | .lines_of_code => r.lines_of_code
  | .logical_lines_of_code => r.logical_lines_of_code
  | .function_arguments => (r.function_arguments : Int)

/-- The tuple of selected fields a row is sorted by. -/
def keyTuple (keys : List Field) (r : MetricRow) : List Int :=
  keys.map (fun k => getField k r)

/-- Lexicographic comparison of key tuples, each component ascending. -/
def lexLe : List Int → List Int → Bool
  | [], _ => true
  | _ :: _, [] => false
  | x :: xs, y :: ys => if x < y then true else if y < x then false else lexLe xs ys

/-- Row comparison by the tuple of the selected fields. -/
def rowLe (keys : List Field) (a b : MetricRow) : Bool :=
  lexLe (keyTuple keys a) (keyTuple keys b)

/-- Modelled from the spec: the stable ascending sort of the rows by the
selected key tuple (insertion sort is stable: a row is inserted before the
first already-placed row it compares `≤` to, hence after every earlier row
with an equal key tuple). -/
def sortRows (keys : List Field) (rows : List MetricRow) : List MetricRow :=
  List.insertionSort (fun a b => rowLe keys a b = true) rows

/-- Modelled from the spec: the row assembled for one collected function. -/
def buildRow (lines : List String) (r : FunctionRecord) : Except String MetricRow :=
  match measure r.node lines with
  | .error e => .error e
  | .ok m => .ok ⟨r.name, score r.node, m.loc, m.lloc, r.params⟩

/-- Modelled from the spec: the rows of one file, in collector discovery
order; the first malformed span aborts the file with its error. -/
def buildRows (lines : List String) : List FunctionRecord → Except String (List MetricRow)
  | [] => .ok []
  | r :: rs =>
    match buildRow lines r with
    | .error e => .error e
    | .ok row =>
      match buildRows lines rs with
      | .error e => .error e
      | .ok rest => .ok (row :: rest)

/-- Modelled from the spec: the Report Assembler — collect, measure and score
each function in discovery order, then sort stably when sort keys are given
(`src/code_complexity.py` is missing). -/
def build (tree : SyntaxNode) (lines : List String) (path : String)
    (keys : List Field) : Except String FileReport :=
  match buildRows lines (collect tree) with
  | .error e => .error e
  | .ok rows => .ok ⟨path, if keys = [] then rows else sortRows keys rows⟩

/-- Parses one sort-key selector from the command line. -/
def parseField (s : String) : Option Field :=
  if s = "cognitive_complexity" then some .cognitive_complexity
  else if s = "lines_of_code" then some .lines_of_code
  else if s = "logical_lines_of_code" then some .logical_lines_of_code
  else if s = "function_arguments" then some .function_arguments
  else none

/-- Validates the whole sort-key list; an unknown name is a configuration
error naming the offending selector. -/
def parseFields : List String → Except String (List Field)
  | [] => .ok []
  | s :: rest =>
    match parseField s with
    | none => .error ("unknown sort key " ++ s)
    | some f =>
      match parseFields rest with
      | .error e => .error e
      | .ok fs => .ok (f :: fs)

/-- `true` exactly on `Except.error`. -/
def isErr {ε α : Type} : Except ε α → Bool
  | .error _ => true
  | .ok _ => false

/-- Modelled from the spec: a whole run — the sort keys are validated before
any file is touched (an unknown selector is fatal for the run, no partial
output), then each file of the discovery set is analyzed independently
(file-level failures are isolated per file). -/
def runAnalyzer (sortKeys : List String)
    (files : List (SyntaxNode × List String × String)) :
    Except String (List (Except String FileReport)) :=
  match parseFields sortKeys with
  | .error e => .error e
  | .ok keys => .ok (files.map (fun f => build f.1 f.2.1 f.2.2 keys))

/-- Builds a child sequence from a plain list of nodes. -/
def nl : List SyntaxNode → NodeList
  | [] => .nil
  | c :: cs => .cons c (nl cs)

/-- The `add_numbers_complex` scenario function: one `if` branch with an
`else`, 3 parameters, 6 physical lines, no blank line. -/
def exComplex : SyntaxNode :=
  .mk .functionDefinition "add_numbers_complex" 3 ⟨1, 6⟩
    (nl [.mk .conditional "" 0 ⟨2, 5⟩
           (nl [.mk .statement "" 0 ⟨3, 3⟩ .nil,
                .mk .statement "" 0 ⟨5, 5⟩ .nil]),
         .mk .statement "" 0 ⟨6, 6⟩ .nil])

/-- The `add_numbers_simple` scenario function: a docstring and a single
`return a + b`, 3 parameters, 10 physical lines of which 3 are blank. -/
def exSimple : SyntaxNode :=
  .mk .functionDefinition "add_numbers_simple" 3 ⟨8, 17⟩
    (nl [.mk .statement "" 0 ⟨9, 14⟩ .nil,
         .mk .statement "" 0 ⟨17, 17⟩ .nil])

/-- The module tree of the scenario file: both functions at top level,
`add_numbers_complex` first, matching the committed report table order. -/
def exTree : SyntaxNode :=
  .mk .other "" 0 ⟨1, 17⟩ (nl [exComplex, exSimple])

/-- The source text of the scenario file, one string per physical line. -/
def exLines : List String :=
  [ "def add_numbers_complex(a, b, c):",
    "    if a > b:",
    "        result = a + b",
    "    else:",
    "        result = a - b",
    "    return result",
    "",
    "def add_numbers_simple(a, b, c):",
    "    \"\"\"This function adds two numbers.",
    "",
    "    Here are some very important notes:",
    "    * note 1",
    "    * note 2",
    "    \"\"\"",
    "",
    "",
    "    return a + b" ]

/-- C1: on the scenario file the engine yields exactly the rows of the
committed report table: `add_numbers_complex` (one `if` branch with an `else`,
3 parameters, 6 physical / 6 logical lines) gives the row (1, 6, 6, 3) and
`add_numbers_simple` (one `return a + b` statement, 3 parameters, 10 physical
/ 7 logical lines) gives the row (0, 10, 7, 3). -/
theorem scenario_rows_match_report :
    build exTree exLines "example/example1.py" [] =
      .ok ⟨"example/example1.py",
        [⟨"add_numbers_complex", 1, 6, 6, 3⟩,
         ⟨"add_numbers_simple", 0, 10, 7, 3⟩]⟩ := by
  rfl

/-- The node kinds named by the spec's zero-score property: conditionals,
loops, boolean-operator chains, exception constructs. -/
def kindIsClaimedConstruct : Kind → Bool
  | .conditional => true
  | .loop => true
  | .booleanOperator => true
  | .exceptionHandler => true
  | _ => false

/-- Every node kind that ever adds to the cognitive-complexity total:
the claimed constructs plus match arms, nested function/lambda definitions,
recursive calls to the same function, and goto jumps. -/
def kindIncrements : Kind → Bool
  | .conditional => true
  | .loop => true
  | .booleanOperator => true
  | .exceptionHandler => true
  | .matchArm => true
  | .functionDefinition => true
  | .lambdaFn => true
  | .recursiveCall => true
  | .gotoLabel => true
  | _ => false

mutual
/-- Whether some node of the subtree has a kind satisfying `p`. -/
def hasKind (p : Kind → Bool) : SyntaxNode → Bool
  | .mk k _ _ _ cs => p k || hasKindList p cs

/-- Whether some node of the sequence's subtrees has a kind satisfying `p`. -/
def hasKindList (p : Kind → Bool) : NodeList → Bool
  | .nil => false
  | .cons c cs => hasKind p c || hasKindList p cs
end

mutual
/-- A subtree free of increment kinds contributes nothing at any level. -/
theorem scoreAt_eq_zero (t : SyntaxNode) (n : Nat)
    (h : hasKind kindIncrements t = false) : scoreAt n t = 0 := by
  cases t with
  | mk k nm p sp cs =>
    rw [hasKind, Bool.or_eq_false_iff] at h
    cases k <;> simp [kindIncrements] at h <;>
      simpa [scoreAt] using scoreListAt_eq_zero cs n h

/-- A sequence of subtrees free of increment kinds contributes nothing. -/
theorem scoreListAt_eq_zero (l : NodeList) (n : Nat)
    (h : hasKindList kindIncrements l = false) : scoreListAt n l = 0 := by
  cases l with
  | nil => rfl
  | cons c cs =>
    rw [hasKindList, Bool.or_eq_false_iff] at h
    rw [scoreListAt, scoreAt_eq_zero c n h.1, scoreListAt_eq_zero cs n h.2]
end

/-- C2: the scorer's increment rule — on entering a conditional branch, loop,
exception handler or match arm at nesting level `n` it adds exactly `1 + n`
and walks that construct's body at level `n + 1`; on entering a nested
function/lambda definition it adds exactly `1 + n` (the enclosing traversal
stops there, so the body contributes nothing further to this function); and
the level is restored on exit: the siblings following a construct are scored
at the original level `n`. -/
theorem scorer_increment_rule (k : Kind) (nm : String) (p : Nat) (sp : Span)
    (cs rest : NodeList) (n : Nat) :
    ((k = Kind.conditional ∨ k = Kind.loop ∨ k = Kind.exceptionHandler ∨
        k = Kind.matchArm) →
      scoreAt n (.mk k nm p sp cs) = (1 + n) + scoreListAt (n + 1) cs)
    ∧ ((k = Kind.functionDefinition ∨ k = Kind.lambdaFn) →
      scoreAt n (.mk k nm p sp cs) = 1 + n)
    ∧ scoreListAt n (.cons (.mk k nm p sp cs) rest)
        = scoreAt n (.mk k nm p sp cs) + scoreListAt n rest := by
  refine ⟨?_, ?_, rfl⟩
  · rintro (rfl | rfl | rfl | rfl) <;> rfl
  · rintro (rfl | rfl) <;> rfl

/-- Witness for C2 at a concrete conditional with one statement child and one
statement sibling, at nesting level 2: the conditional costs `1 + 2` and its
body is walked at level 3, while its sibling is scored back at level 2. -/
theorem scorer_increment_rule_witness :
    scoreAt 2 (.mk .conditional "" 0 ⟨1, 1⟩
        (.cons (.mk .statement "" 0 ⟨1, 1⟩ .nil) .nil))
      = (1 + 2) + scoreListAt 3
          (.cons (.mk .statement "" 0 ⟨1, 1⟩ .nil) .nil)
    ∧ scoreListAt 2 (.cons (.mk .conditional "" 0 ⟨1, 1⟩
          (.cons (.mk .statement "" 0 ⟨1, 1⟩ .nil) .nil))
          (.cons (.mk .statement "" 0 ⟨2, 2⟩ .nil) .nil))
        = scoreAt 2 (.mk .conditional "" 0 ⟨1, 1⟩
            (.cons (.mk .statement "" 0 ⟨1, 1⟩ .nil) .nil))
          + scoreListAt 2 (.cons (.mk .statement "" 0 ⟨2, 2⟩ .nil) .nil) :=
  ⟨(scorer_increment_rule .conditional "" 0 ⟨1, 1⟩
      (.cons (.mk .statement "" 0 ⟨1, 1⟩ .nil) .nil)
      (.cons (.mk .statement "" 0 ⟨2, 2⟩ .nil) .nil) 2).1 (Or.inl rfl),
   (scorer_increment_rule .conditional "" 0 ⟨1, 1⟩
      (.cons (.mk .statement "" 0 ⟨1, 1⟩ .nil) .nil)
      (.cons (.mk .statement "" 0 ⟨2, 2⟩ .nil) .nil) 2).2.2⟩

/-- A function whose body is exactly one nested function definition holding a
single statement: none of the claimed constructs occur in it. -/
def nestedOnlyFn : SyntaxNode :=
  .mk .functionDefinition "outer" 0 ⟨1, 3⟩
    (nl [.mk .functionDefinition "inner" 0 ⟨2, 3⟩
           (nl [.mk .statement "" 0 ⟨3, 3⟩ .nil])])

/-- A function whose body is exactly one recursive call to itself: none of
the claimed constructs occur in it. -/
def recursiveOnlyFn : SyntaxNode :=
  .mk .functionDefinition "loop_forever" 0 ⟨1, 2⟩
    (nl [.mk .recursiveCall "loop_forever" 0 ⟨2, 2⟩ .nil])

/-- C3 counterexample: two function bodies containing no conditional, loop,
boolean-operator chain or exception construct whose scores are 1, not 0 —
the nested function definition adds +1 for the act of nesting, and the
recursive call to the same function adds the flat +1. -/
theorem zero_score_claim_cex :
    hasKindList kindIsClaimedConstruct nestedOnlyFn.children = false
      ∧ score nestedOnlyFn = 1
      ∧ hasKindList kindIsClaimedConstruct recursiveOnlyFn.children = false
      ∧ score recursiveOnlyFn = 1 := by
  exact ⟨rfl, rfl, rfl, rfl⟩

/-- C3 (amended): a function whose body contains no conditional, loop,
boolean-operator chain, exception construct, match arm, nested
function/lambda definition, recursive call to the same function, or goto
jump scores exactly 0, and every function's score is a non-negative
integer. -/
theorem straight_line_scores_zero (f g : SyntaxNode)
    (h : hasKindList kindIncrements f.children = false) :
    score f = 0 ∧ 0 ≤ (score g : Int) := by
  exact ⟨scoreListAt_eq_zero f.children 0 h, Int.natCast_nonneg _⟩

/-- Witness for the amended C3 at the scenario function
`add_numbers_simple`. -/
theorem straight_line_scores_zero_witness :
    score exSimple = 0 ∧ 0 ≤ (score exComplex : Int) :=
  straight_line_scores_zero exSimple exComplex rfl

/-- The kinds scored with the structural nesting penalty `1 + level`. -/
def isNestingKind : Kind → Bool
  | .conditional => true
  | .loop => true
  | .exceptionHandler => true
  | .matchArm => true
  | .functionDefinition => true
  | .lambdaFn => true
  | _ => false

mutual
/-- The number of nesting-penalty increments the scorer performs inside a
subtree — the coefficient by which its contribution grows per enclosing
nesting level. -/
def nestCount : SyntaxNode → Nat
  | .mk k _ _ _ cs =>
    match k with
    | .conditional => 1 + nestCountList cs
    | .loop => 1 + nestCountList cs
    | .exceptionHandler => 1 + nestCountList cs
    | .matchArm => 1 + nestCountList cs
    | .functionDefinition => 1
    | .lambdaFn => 1
    | .booleanOperator => nestCountList cs
    | .recursiveCall => nestCountList cs
    | .gotoLabel => nestCountList cs
    | .jump => nestCountList cs
    | .statement => nestCountList cs
    | .other => nestCountList cs

/-- The nesting-penalty increments performed across a sibling sequence. -/
def nestCountList : NodeList → Nat
  | .nil => 0
  | .cons c cs => nestCount c + nestCountList cs
end

mutual
/-- Shifting a subtree `m` levels deeper raises its contribution by exactly
`m` for each nesting-penalty increment it performs. -/
theorem scoreAt_add_level (t : SyntaxNode) (n m : Nat) :
    scoreAt (n + m) t = scoreAt n t + m * nestCount t := by
  cases t with
  | mk k nm p sp cs =>
    have e : n + m + 1 = (n + 1) + m := by omega
    cases k <;>
      simp only [scoreAt, nestCount, e, scoreListAt_add_level cs (n + 1) m,
        scoreListAt_add_level cs n m] <;> ring

/-- Shifting a sibling sequence `m` levels deeper raises its contribution by
exactly `m` per nesting-penalty increment it performs. -/
theorem scoreListAt_add_level (l : NodeList) (n m : Nat) :
    scoreListAt (n + m) l = scoreListAt n l + m * nestCountList l := by
  cases l with
  | nil => rfl
  | cons c cs =>
    rw [scoreListAt, scoreListAt, scoreAt_add_level c n m,
      scoreListAt_add_level cs n m, nestCountList]
    ring
end

/-- A construct scored with the nesting penalty performs at least one
nesting-penalty increment. -/
theorem nestCount_pos (t : SyntaxNode) (h : isNestingKind t.kind = true) :
    1 ≤ nestCount t := by
  cases t with
  | mk k nm p sp cs =>
    cases k <;> simp [isNestingKind, SyntaxNode.kind] at h <;>
      simp [nestCount]

/-- A boolean-operator chain standing alone: a scored construct. -/
def boolChain : SyntaxNode :=
  .mk .booleanOperator "" 0 ⟨1, 1⟩ .nil

/-- C4 counterexample: a boolean-operator chain contributes 1 at top level
and still 1 one nesting level deeper — its contribution does not strictly
increase with depth, refuting the claim for every construct. -/
theorem deeper_strict_increase_cex :
    scoreAt 0 boolChain = 1 ∧ scoreAt 1 boolChain = 1 :=
  ⟨rfl, rfl⟩

/-- C4 (amended): a construct placed `m` levels deeper contributes exactly
`m` more per nesting-penalty increment it contains (so flat constructs such
as boolean-operator chains are unchanged), and every nesting-increasing
construct (conditional, loop, exception handler, match arm, nested
function/lambda) strictly increases when placed deeper — exactly +1 per
level when it contains a single nesting-penalty point, as in the spec's
conditional-inside-a-conditional example. -/
theorem nesting_depth_shift (c : SyntaxNode) (n m : Nat) :
    scoreAt (n + m) c = scoreAt n c + m * nestCount c
    ∧ (isNestingKind c.kind = true → 0 < m →
        scoreAt n c < scoreAt (n + m) c) := by
  refine ⟨scoreAt_add_level c n m, fun h hm => ?_⟩
  have h1 := nestCount_pos c h
  have h2 : 0 < m * nestCount c := Nat.mul_pos hm h1
  rw [scoreAt_add_level c n m]
  omega

/-- A conditional with a single flat statement in its body. -/
def condAlone : SyntaxNode :=
  .mk .conditional "" 0 ⟨1, 2⟩ (nl [.mk .statement "" 0 ⟨2, 2⟩ .nil])

/-- Witness for the amended C4: the flat conditional one level deeper costs
exactly one more point, a strict increase. -/
theorem nesting_depth_shift_witness :
    scoreAt (0 + 1) condAlone = scoreAt 0 condAlone + 1 * nestCount condAlone
    ∧ scoreAt 0 condAlone < scoreAt (0 + 1) condAlone :=
  ⟨(nesting_depth_shift condAlone 0 1).1,
   (nesting_depth_shift condAlone 0 1).2 rfl (by decide)⟩

/-- C5: on a well-formed span (start ≤ end) the extractor succeeds with
`lines_of_code = end − start + 1`, and the returned logical line count never
exceeds the returned physical line count. -/
theorem measure_span_ok (node : SyntaxNode) (lines : List String) (m : Measures)
    (h1 : node.span.startLine ≤ node.span.endLine)
    (h2 : measure node lines = .ok m) :
    m.loc = (node.span.endLine : Int) - (node.span.startLine : Int) + 1
      ∧ m.lloc ≤ m.loc := by
  rw [measure, if_neg (Nat.not_lt.mpr h1)] at h2
  cases h2
  refine ⟨rfl, ?_⟩
  have hb : llocOf lines node.span.startLine node.span.endLine
      ≤ node.span.endLine + 1 - node.span.startLine := by
    unfold llocOf sliceLines
    refine le_trans (List.countP_le_length _) ?_
    rw [List.length_take]
    exact min_le_left _ _
  simp only [Measures.lloc, Measures.loc]
  omega

/-- Witness for C5 at the scenario function `add_numbers_simple`:
10 physical lines, 7 logical lines. -/
theorem measure_span_ok_witness :
    (⟨10, 7⟩ : Measures).loc
        = (exSimple.span.endLine : Int) - (exSimple.span.startLine : Int) + 1
      ∧ (⟨10, 7⟩ : Measures).lloc ≤ (⟨10, 7⟩ : Measures).loc :=
  measure_span_ok exSimple exLines ⟨10, 7⟩ (by decide) rfl

/-- A function record whose span ends before it starts. -/
def badSpanFn : SyntaxNode :=
  .mk .functionDefinition "broken" 0 ⟨5, 3⟩ .nil

/-- C8: a malformed span (end before start) makes the extractor fail with a
hard error naming the function instead of returning a result, and whenever
the extractor does return, the physical line count is at least 1 — never
negative. -/
theorem malformed_span_hard_error (node node2 : SyntaxNode)
    (lines lines2 : List String) (m : Measures)
    (h : node.span.endLine < node.span.startLine) :
    measure node lines = .error ("malformed span in function " ++ node.name)
    ∧ (measure node2 lines2 = .ok m → 1 ≤ m.loc) := by
  constructor
  · rw [measure, if_pos h]
  · intro h2
    rw [measure] at h2
    by_cases hc : node2.span.endLine < node2.span.startLine
    · rw [if_pos hc] at h2
      exact absurd h2 (by simp)
    · rw [if_neg hc] at h2
      cases h2
      simp only [Measures.loc]
      omega

/-- Witness for C8: the extractor rejects the span (5, 3) with a hard error,
and on `add_numbers_simple` it returns the positive count 10. -/
theorem malformed_span_hard_error_witness :
    measure badSpanFn exLines
        = .error ("malformed span in function " ++ badSpanFn.name)
    ∧ 1 ≤ (⟨10, 7⟩ : Measures).loc :=
  ⟨(malformed_span_hard_error badSpanFn exSimple exLines exLines ⟨10, 7⟩
      (by decide)).1,
   (malformed_span_hard_error badSpanFn exSimple exLines exLines ⟨10, 7⟩
      (by decide)).2 rfl⟩

/-- The kind tag the collector recognizes as a function definition. -/
def kindIsFunDef : Kind → Bool
  | .functionDefinition => true
  | _ => false

mutual
/-- A subtree with no function-definition node yields no record. -/
theorem collect_eq_nil (t : SyntaxNode)
    (h : hasKind kindIsFunDef t = false) : collect t = [] := by
  cases t with
  | mk k nm p sp cs =>
    rw [hasKind, Bool.or_eq_false_iff] at h
    have hk : ¬(k = Kind.functionDefinition) := by
      intro he
      rw [he] at h
      exact absurd h.1 (by simp [kindIsFunDef])
    rw [collect, if_neg hk, collectList_eq_nil cs h.2]
    rfl

/-- A sequence with no function-definition node yields no record. -/
theorem collectList_eq_nil (l : NodeList)
    (h : hasKindList kindIsFunDef l = false) : collectList l = [] := by
  cases l with
  | nil => rfl
  | cons c cs =>
    rw [hasKindList, Bool.or_eq_false_iff] at h
    rw [collectList, collect_eq_nil c h.1, collectList_eq_nil cs h.2]
    rfl
end

/-- Collection distributes over appended sibling sequences. -/
theorem collectList_append (l1 l2 : NodeList) :
    collectList (l1.append l2) = collectList l1 ++ collectList l2 := by
  cases l1 with
  | nil => rfl
  | cons c cs =>
    rw [NodeList.append, collectList, collectList_append cs l2, collectList,
      List.append_assoc]

/-- Scoring distributes over appended sibling sequences. -/
theorem scoreListAt_append (l1 l2 : NodeList) (n : Nat) :
    scoreListAt n (l1.append l2) = scoreListAt n l1 + scoreListAt n l2 := by
  cases l1 with
  | nil => simp [NodeList.append, scoreListAt]
  | cons c cs =>
    rw [NodeList.append, scoreListAt, scoreListAt_append cs l2 n, scoreListAt]
    ring

/-- The logical-line count of a sub-range never exceeds the count of an
enclosing range. -/
theorem llocOf_mono (lines : List String) (s e ns ne : Nat)
    (h1 : 1 ≤ s) (h2 : s ≤ ns) (h3 : ne ≤ e) :
    llocOf lines ns ne ≤ llocOf lines s e := by
  unfold llocOf
  refine List.Sublist.countP_le _ ?_
  unfold sliceLines
  by_cases hc : ne + 1 ≤ ns
  · have hz : ne + 1 - ns = 0 := by omega
    rw [hz]
    simp
  · push_neg at hc
    have hd : (lines.drop (s - 1)).drop (ns - s) = lines.drop (ns - 1) := by
      rw [List.drop_drop]
      congr 1
      omega
    rw [← hd]
    have he : ((lines.drop (s - 1)).take (e + 1 - s)).drop (ns - s)
        = ((lines.drop (s - 1)).drop (ns - s)).take (e + 1 - ns) := by
      rw [List.drop_take]
      congr 1
      omega
    have t1 : List.Sublist
        (((lines.drop (s - 1)).drop (ns - s)).take (ne + 1 - ns))
        (((lines.drop (s - 1)).drop (ns - s)).take (e + 1 - ns)) := by
      have ht : ((lines.drop (s - 1)).drop (ns - s)).take (ne + 1 - ns)
          = (((lines.drop (s - 1)).drop (ns - s)).take (e + 1 - ns)).take
              (ne + 1 - ns) := by
        rw [List.take_take]
        congr 1
        omega
      rw [ht]
      exact List.take_sublist _ _
    have t2 : List.Sublist
        (((lines.drop (s - 1)).drop (ns - s)).take (e + 1 - ns))
        ((lines.drop (s - 1)).take (e + 1 - s)) := by
      rw [← he]
      exact List.drop_sublist _ _
    exact t1.trans t2

/-- C6: a function definition nested inside another.  The collector emits the
nested definition as its own independent record, right after the outer one in
discovery order; the outer function's raw span covers the nested one so its
raw and logical line counts include the nested function's lines; and the
outer function's score adds exactly the +1 act-of-nesting penalty for the
nested definition while the nested body's internals contribute nothing to
it — whatever they are. -/
theorem nested_function_independent_record (onm nnm : String) (op np : Nat)
    (osp nsp : Span) (pre post ncs : NodeList) (lines : List String)
    (h1 : hasKindList kindIsFunDef pre = false)
    (h2 : hasKindList kindIsFunDef post = false)
    (hs1 : 1 ≤ osp.startLine) (hs2 : osp.startLine ≤ nsp.startLine)
    (hs3 : nsp.endLine ≤ osp.endLine) :
    collect (.mk .functionDefinition onm op osp
        (pre.append (.cons (.mk .functionDefinition nnm np nsp ncs) post)))
      = ⟨onm, .mk .functionDefinition onm op osp
            (pre.append
              (.cons (.mk .functionDefinition nnm np nsp ncs) post)), op⟩
          :: ⟨nnm, .mk .functionDefinition nnm np nsp ncs, np⟩
          :: collectList ncs
    ∧ llocOf lines nsp.startLine nsp.endLine
        ≤ llocOf lines osp.startLine osp.endLine
    ∧ (nsp.endLine : Int) - (nsp.startLine : Int) + 1
        ≤ (osp.endLine : Int) - (osp.startLine : Int) + 1
    ∧ score (.mk .functionDefinition onm op osp
        (pre.append (.cons (.mk .functionDefinition nnm np nsp ncs) post)))
      = scoreListAt 0 pre + 1 + scoreListAt 0 post := by
  refine ⟨?_, llocOf_mono lines osp.startLine osp.endLine nsp.startLine
    nsp.endLine hs1 hs2 hs3, by omega, ?_⟩
  · rw [collect, if_pos rfl, collectList_append, collectList_eq_nil pre h1,
      collectList, collect, if_pos rfl, collectList_eq_nil post h2]
    simp
  · rw [score, SyntaxNode.children, scoreListAt_append, scoreListAt, scoreAt]
    omega

/-- A nested function holding one statement, inside `outerFn`. -/
def innerFn : SyntaxNode :=
  .mk .functionDefinition "inner" 0 ⟨2, 3⟩
    (nl [.mk .statement "" 0 ⟨3, 3⟩ .nil])

/-- An outer function whose body is exactly the nested `innerFn`. -/
def outerFn : SyntaxNode :=
  .mk .functionDefinition "outer" 0 ⟨1, 3⟩
    (NodeList.nil.append (.cons innerFn .nil))

/-- Witness for C6 at `outerFn`/`innerFn`: two records in discovery order,
nested size within outer size, and the outer score is exactly the +1
act-of-nesting penalty. -/
theorem nested_function_independent_record_witness :
    collect outerFn = [⟨"outer", outerFn, 0⟩, ⟨"inner", innerFn, 0⟩]
    ∧ llocOf exLines 2 3 ≤ llocOf exLines 1 3
    ∧ (3 : Int) - (2 : Int) + 1 ≤ (3 : Int) - (1 : Int) + 1
    ∧ score outerFn = scoreListAt 0 .nil + 1 + scoreListAt 0 .nil := by
  have h := nested_function_independent_record "outer" "inner" 0 0
    ⟨1, 3⟩ ⟨2, 3⟩ .nil .nil (nl [.mk .statement "" 0 ⟨3, 3⟩ .nil]) exLines
    rfl rfl (by decide) (by decide) (by decide)
  exact ⟨h.1, h.2.1, h.2.2.1, h.2.2.2⟩

/-- Lexicographic comparison is reflexive. -/
theorem lexLe_refl : ∀ t : List Int, lexLe t t = true
  | [] => rfl
  | x :: xs => by
    rw [lexLe, if_neg (lt_irrefl x), if_neg (lt_irrefl x)]
    exact lexLe_refl xs

/-- Lexicographic comparison is total. -/
theorem lexLe_total (a : List Int) : ∀ b, lexLe a b = true ∨ lexLe b a = true := by
  induction a with
  | nil => intro b; exact Or.inl rfl
  | cons x xs ih =>
    intro b
    cases b with
    | nil => exact Or.inr rfl
    | cons y ys =>
      rcases lt_trichotomy x y with h | h | h
      · left
        rw [lexLe, if_pos h]
      · subst h
        simp only [lexLe, if_neg (lt_irrefl x)]
        exact ih ys
      · right
        rw [lexLe, if_pos h]

/-- Lexicographic comparison is transitive. -/
theorem lexLe_trans (a : List Int) : ∀ b c, lexLe a b = true → lexLe b c = true →
    lexLe a c = true := by
  induction a with
  | nil => intro b c h1 h2; rfl
  | cons x xs ih =>
    intro b c h1 h2
    cases b with
    | nil => rw [lexLe] at h1; cases h1
    | cons y ys =>
      cases c with
      | nil => rw [lexLe] at h2; cases h2
      | cons z zs =>
        rw [lexLe] at h1 h2 ⊢
        by_cases hxy : x < y
        · rw [if_pos hxy] at h1
          by_cases hyz : y < z
          · rw [if_pos (lt_trans hxy hyz)]
          · by_cases hzy : z < y
            · rw [if_neg hyz, if_pos hzy] at h2
              cases h2
            · have heq : y = z := le_antisymm (not_lt.mp hzy) (not_lt.mp hyz)
              rw [if_pos (heq ▸ hxy)]
        · by_cases hyx : y < x
          · rw [if_neg hxy, if_pos hyx] at h1
            cases h1
          · have hxe : x = y := le_antisymm (not_lt.mp hyx) (not_lt.mp hxy)
            rw [if_neg hxy, if_neg hyx] at h1
            by_cases hyz : y < z
            · rw [if_pos (hxe ▸ hyz)]
            · by_cases hzy : z < y
              · rw [if_neg hyz, if_pos hzy] at h2
                cases h2
              · have hye : y = z := le_antisymm (not_lt.mp hzy) (not_lt.mp hyz)
                rw [if_neg hyz, if_neg hzy] at h2
                rw [if_neg (hxe ▸ hyz), if_neg (hxe ▸ hzy)]
                exact ih ys zs h1 h2

/-- Rows with equal key tuples compare `≤` in both directions. -/
theorem rowLe_of_keyTuple_eq (keys : List Field) (a b : MetricRow)
    (h : keyTuple keys a = keyTuple keys b) : rowLe keys a b = true := by
  rw [rowLe, h]
  exact lexLe_refl _

/-- A single-selector comparison is exactly the field comparison. -/
theorem rowLe_single (k : Field) (a b : MetricRow) :
    rowLe [k] a b = true ↔ getField k a ≤ getField k b := by
  rw [rowLe, keyTuple, keyTuple, List.map, List.map, List.map, List.map, lexLe]
  by_cases h1 : getField k a < getField k b
  · rw [if_pos h1]
    simp [le_of_lt h1]
  · by_cases h2 : getField k b < getField k a
    · rw [if_neg h1, if_pos h2]
      simp [not_le.mpr h2]
    · rw [if_neg h1, if_neg h2]
      simp [not_lt.mp h2, lexLe]

/-- Inserting a row whose key tuple is `t` into any list places it before
every later-discovered row with key tuple `t`: the `t`-rows of the result are
the inserted row followed by the `t`-rows of the list. -/
theorem filter_orderedInsert_pos (keys : List Field) (t : List Int)
    (a : MetricRow) (ha : keyTuple keys a = t) :
    ∀ l : List MetricRow,
      (List.orderedInsert (fun x y => rowLe keys x y = true) a l).filter
          (fun x => keyTuple keys x == t)
        = a :: l.filter (fun x => keyTuple keys x == t) := by
  intro l
  induction l with
  | nil => simp [List.orderedInsert, List.filter, ha]
  | cons b bs ih =>
    rw [List.orderedInsert]
    by_cases hr : rowLe keys a b = true
    · rw [if_pos hr]
      simp only [List.filter_cons]
      simp [ha]
    · rw [if_neg hr]
      have hb : (keyTuple keys b == t) = false := by
        cases hbe : keyTuple keys b == t with
        | false => rfl
        | true =>
          exact absurd (rowLe_of_keyTuple_eq keys a b
            (ha.trans (eq_of_beq hbe).symm)) hr
      simp only [List.filter_cons, hb]
      simp only [Bool.false_eq_true, if_false]
      exact ih

/-- Inserting a row whose key tuple is not `t` leaves the `t`-rows of the
list unchanged. -/
theorem filter_orderedInsert_neg (keys : List Field) (t : List Int)
    (a : MetricRow) (ha : keyTuple keys a ≠ t) :
    ∀ l : List MetricRow,
      (List.orderedInsert (fun x y => rowLe keys x y = true) a l).filter
          (fun x => keyTuple keys x == t)
        = l.filter (fun x => keyTuple keys x == t) := by
  have hpa : (keyTuple keys a == t) = false := by
    cases hbe : keyTuple keys a == t with
    | false => rfl
    | true => exact absurd (eq_of_beq hbe) ha
  intro l
  induction l with
  | nil => simp [List.orderedInsert, List.filter, hpa]
  | cons b bs ih =>
    rw [List.orderedInsert]
    by_cases hr : rowLe keys a b = true
    · rw [if_pos hr]
      simp only [List.filter_cons, hpa]
      simp only [Bool.false_eq_true, if_false]
    · rw [if_neg hr]
      simp only [List.filter_cons, ih]

/-- Stability of the row sort: for every key-tuple value, the rows carrying
it appear in the sorted output exactly as they appeared in discovery order. -/
theorem filter_insertionSort (keys : List Field) (t : List Int) :
    ∀ l : List MetricRow,
      (List.insertionSort (fun x y => rowLe keys x y = true) l).filter
          (fun x => keyTuple keys x == t)
        = l.filter (fun x => keyTuple keys x == t) := by
  intro l
  induction l with
  | nil => rfl
  | cons a l ih =>
    rw [List.insertionSort]
    by_cases ha : keyTuple keys a = t
    · rw [filter_orderedInsert_pos keys t a ha _, ih]
      simp only [List.filter_cons]
      simp [ha]
    · rw [filter_orderedInsert_neg keys t a ha _, ih]
      have hpa : (keyTuple keys a == t) = false := by
        cases hbe : keyTuple keys a == t with
        | false => rfl
        | true => exact absurd (eq_of_beq hbe) ha
      simp only [List.filter_cons, hpa]
      simp only [Bool.false_eq_true, if_false]

/-- The sorted rows are totally ordered (pairwise `≤`) by the key tuple. -/
theorem sorted_sortRows (keys : List Field) (rows : List MetricRow) :
    (sortRows keys rows).Pairwise (fun a b => rowLe keys a b = true) := by
  haveI ht : IsTotal MetricRow (fun a b => rowLe keys a b = true) :=
    ⟨fun a b => lexLe_total (keyTuple keys a) (keyTuple keys b)⟩
  haveI htr : IsTrans MetricRow (fun a b => rowLe keys a b = true) :=
    ⟨fun a b c h1 h2 =>
      lexLe_trans (keyTuple keys a) (keyTuple keys b) (keyTuple keys c) h1 h2⟩
  exact List.sorted_insertionSort _ rows

/-- A file with three functions scoring 2, 0 and 1 in discovery order. -/
def scnTree : SyntaxNode :=
  .mk .other "" 0 ⟨1, 3⟩
    (nl [ .mk .functionDefinition "f_two" 0 ⟨1, 1⟩
            (nl [.mk .conditional "" 0 ⟨1, 1⟩ .nil,
                 .mk .conditional "" 0 ⟨1, 1⟩ .nil]),
          .mk .functionDefinition "f_zero" 0 ⟨2, 2⟩
            (nl [.mk .statement "" 0 ⟨2, 2⟩ .nil]),
          .mk .functionDefinition "f_one" 0 ⟨3, 3⟩
            (nl [.mk .conditional "" 0 ⟨3, 3⟩ .nil]) ])

/-- Source text for the three-function scenario file. -/
def scnLines : List String := ["x = 1", "y = 2", "z = 3"]

/-- The three scenario rows in discovery order. -/
def scnRows0 : List MetricRow :=
  [⟨"f_two", 2, 1, 1, 0⟩, ⟨"f_zero", 0, 1, 1, 0⟩, ⟨"f_one", 1, 1, 1, 0⟩]

/-- The three scenario rows ordered ascending by cognitive complexity. -/
def scnSorted : List MetricRow :=
  [⟨"f_zero", 0, 1, 1, 0⟩, ⟨"f_one", 1, 1, 1, 0⟩, ⟨"f_two", 2, 1, 1, 0⟩]

/-- The scenario report sorted by the single key cognitive_complexity. -/
def scnRep : FileReport := ⟨"w.py", scnSorted⟩

/-- C7: with a non-empty key list, `build` returns the discovery rows totally
ordered ascending by the selected key tuple; the sort is stable — for every
key-tuple value, the rows carrying it keep their discovery order; sorting by
a single key makes that key's values non-decreasing across the rows; and the
three-function file scoring [2, 0, 1], sorted by cognitive_complexity then
lines_of_code, lists the 0-scoring, then the 1-scoring, then the 2-scoring
function. -/
theorem report_rows_sorted_stable (tree : SyntaxNode) (lines : List String)
    (path : String) (keys : List Field) (rows0 : List MetricRow)
    (rep : FileReport) (k : Field)
    (hk : keys ≠ [])
    (h0 : buildRows lines (collect tree) = .ok rows0)
    (hb : build tree lines path keys = .ok rep) :
    rep.rows.Pairwise (fun a b => rowLe keys a b = true)
    ∧ (∀ t : List Int,
        rep.rows.filter (fun r => keyTuple keys r == t)
          = rows0.filter (fun r => keyTuple keys r == t))
    ∧ (keys = [k] →
        (rep.rows.map (getField k)).Pairwise (fun a b => a ≤ b))
    ∧ build scnTree scnLines "scn.py"
          [Field.cognitive_complexity, Field.lines_of_code]
        = .ok ⟨"scn.py", scnSorted⟩ := by
  simp only [build, h0] at hb
  rw [if_neg hk] at hb
  injection hb with h
  subst h
  refine ⟨sorted_sortRows keys rows0, fun t => filter_insertionSort keys t rows0,
    fun hke => ?_, rfl⟩
  subst hke
  exact List.Pairwise.map (getField k)
    (fun a b h2 => (rowLe_single k a b).mp h2) (sorted_sortRows [k] rows0)

/-- Witness for C7 on the three-function scenario file sorted by the single
key cognitive_complexity. -/
theorem report_rows_sorted_stable_witness :
    scnRep.rows.Pairwise
        (fun a b => rowLe [Field.cognitive_complexity] a b = true)
    ∧ scnRep.rows.filter
          (fun r => keyTuple [Field.cognitive_complexity] r == [(1 : Int)])
        = scnRows0.filter
            (fun r => keyTuple [Field.cognitive_complexity] r == [(1 : Int)])
    ∧ (scnRep.rows.map (getField Field.cognitive_complexity)).Pairwise
        (fun a b => a ≤ b)
    ∧ build scnTree scnLines "scn.py"
          [Field.cognitive_complexity, Field.lines_of_code]
        = .ok ⟨"scn.py", scnSorted⟩ := by
  have h := report_rows_sorted_stable scnTree scnLines "w.py"
    [Field.cognitive_complexity] scnRows0 scnRep Field.cognitive_complexity
    (by simp) rfl rfl
  exact ⟨h.1, h.2.1 [(1 : Int)], h.2.2.1 rfl, h.2.2.2⟩

/-- A key list containing an unknown selector fails validation. -/
theorem parseFields_isErr (nm : String) (h2 : parseField nm = none) :
    ∀ names : List String, nm ∈ names → isErr (parseFields names) = true := by
  intro names
  induction names with
  | nil => intro h; cases h
  | cons s rest ih =>
    intro h
    rcases List.mem_cons.mp h with rfl | hm
    · simp [parseFields, h2, isErr]
    · cases hp : parseField s with
      | none => simp [parseFields, hp, isErr]
      | some f =>
        have hr := ih hm
        cases he : parseFields rest with
        | error e => simp [parseFields, hp, he, isErr]
        | ok fs => rw [he] at hr; simp [isErr] at hr

/-- C9: a run whose sort-key list contains an unknown field name fails with a
configuration error: the whole run's result is the error alone — no file
report list is produced, so no file is analyzed and there is no partial
output. -/
theorem unknown_sort_key_aborts_run (names : List String) (nm : String)
    (files : List (SyntaxNode × List String × String))
    (h1 : nm ∈ names) (h2 : parseField nm = none) :
    isErr (runAnalyzer names files) = true := by
  have hp := parseFields_isErr nm h2 names h1
  cases he : parseFields names with
  | error e => simp [runAnalyzer, he, isErr]
  | ok keys => rw [he] at hp; simp [isErr] at hp

/-- Witness for C9: requesting the unknown key "bogus" aborts the run on the
scenario file before producing any report. -/
theorem unknown_sort_key_aborts_run_witness :
    isErr (runAnalyzer ["cognitive_complexity", "bogus"]
      [(exTree, exLines, "example/example1.py")]) = true :=
  unknown_sort_key_aborts_run ["cognitive_complexity", "bogus"] "bogus"
    [(exTree, exLines, "example/example1.py")] (by simp) rfl

end SCA
